import Mathlib

/-!
Verification development for the sfizz voice-allocation and modulation-routing
engine, as described by its specification, together with direct embeddings of
the test scaffolding (`tests/TestHelpers.h`) and the debug macros
(`src/sfizz/Debug.h`).

The repository sources available here are the debug-macro header and the test
helper header; the engine core (voice pool, allocation, modulation resolution)
is declared and exercised by those files but its implementation is not among
the sources, so those parts are modelled from the specification, as flagged on
each definition.
-/

namespace Sfz

/-- Voice lifecycle states, from the spec state machine
`Idle → Playing → Releasing → Off → Idle` (§4.2). -/
inductive VoiceState where
  | Idle
  | Playing
  | Releasing
  | Off
deriving DecidableEq, Repr

/-- Parameters that modulation can target; `cutoffFreq` is the one named in the
spec scenarios, the others are representative members of the schema. -/
inductive Param where
  | cutoffFreq
  | volume
  | pan
  | pitch
  | resonance
deriving DecidableEq, Repr

/-- Roles of a modulation source or target ModKey (spec §2: controller,
envelope stage, LFO, velocity, note, aftertouch, pitch-bend). -/
inductive ModRole where
  | controller
  | envelopeStage
  | lfo
  | velocity
  | noteRole
  | aftertouch
  | pitchBend
  | paramTarget
deriving DecidableEq, Repr

/-- Modelled from the spec (§3, the `ModKey` record of
`modulations/ModKey.h`, not among the sources):
`{ role, sourceIndex?, targetParameter?, targetIndex?, ccNumber? }`.
Two ModKeys are equal iff all populated fields match, which the derived
decidable equality realises. -/
structure ModKey where
  role : ModRole
  sourceIndex : Option Nat
  targetParameter : Option Param
  targetIndex : Option Nat
  ccNumber : Option Nat
deriving DecidableEq, Repr

/-- Identifiers of the combination curves a Connection may use; the spec names
`linear` explicitly, the others stand for the loader-supplied curve table. -/
inductive CurveId where
  | linear
  | concave
  | convex
deriving DecidableEq, Repr

/-- Curve evaluation. `linear` is the identity; the other two are concrete
pure shapes standing in for the loader's curve table. -/
def curveEval : CurveId → ℚ → ℚ
  | .linear, x => x
  | .concave, x => x * x
  | .convex, x => 1 - (1 - x) * (1 - x)

/-- Modelled from the spec (§3): a Connection is an edge in the modulation
graph: source ModKey → target ModKey, with a combination curve and a
depth/scale. -/
structure Connection where
  source : ModKey
  target : ModKey
  curve : CurveId
  depth : ℚ
deriving DecidableEq, Repr

/-- Modelled from the spec (§3, the `Region` record of `sfizz/Region.h`, not
among the sources): trigger ranges (key, velocity, per-CC), static parameter
values, the declared Connections, a sample reference and the number of LFOs
its voices instantiate. Immutable once loaded. -/
structure Region where
  loKey : Nat
  hiKey : Nat
  loVel : ℚ
  hiVel : ℚ
  ccConditions : List (Nat × ℚ × ℚ)
  staticParams : List (Param × ℚ)
  connections : List Connection
  sampleRef : Nat
  numLfos : Nat
deriving DecidableEq, Repr

/-- Modelled from the spec (§3, the `Voice` record of `sfizz/Voice.h`, not
among the sources): a runtime rendering instance bound to one Region and one
active note, with per-voice modulation state. -/
structure Voice where
  state : VoiceState
  region : Option Region
  note : Nat
  velocity : ℚ
  age : Nat
  envelopePhase : ℚ
  lfoPhases : List ℚ
deriving DecidableEq, Repr

/-- The content of an unused pool slot: Idle, no region bound (spec §4.2). -/
def idleVoice : Voice :=
  { state := .Idle, region := none, note := 0, velocity := 0, age := 0,
    envelopePhase := 0, lfoPhases := [] }

/-- Modelled from the spec (§4.2): the voice built when a slot is claimed:
region/note/velocity assigned, state = Playing, envelope/LFO phase reset,
age = the next monotonic tick. -/
def mkVoice (r : Region) (note : Nat) (vel : ℚ) (age : Nat) : Voice :=
  { state := .Playing, region := some r, note := note, velocity := vel,
    age := age, envelopePhase := 0, lfoPhases := List.replicate r.numLfos 0 }

/-- Modelled from the spec (§4.2): forcing a steal victim to Off. -/
def forceOff (v : Voice) : Voice := { v with state := .Off }

/-- Modelled from the spec (§5, the `Synth` engine of `sfizz/Synth.h`, not
among the sources): the engine state: the fixed-capacity voice pool, the
controller state (0 at startup), the loaded region catalog, the monotonic age
tick and the dropped-event counter. -/
structure Synth where
  pool : List Voice
  ctrl : Nat → ℚ
  regions : List Region
  nextAge : Nat
  dropCounter : Nat

/-- The engine at construction: `maxPolyphony` Idle slots, all controllers 0. -/
def initSynth (maxPolyphony : Nat) (regions : List Region) : Synth :=
  { pool := List.replicate maxPolyphony idleVoice, ctrl := fun _ => 0,
    regions := regions, nextAge := 0, dropCounter := 0 }

/-- Index of the first voice in a given state, if any. -/
def firstIdxSt (s : VoiceState) : List Voice → Option Nat
  | [] => none
  | v :: vs => if v.state = s then some 0 else (firstIdxSt s vs).map (· + 1)

/-- Index of the voice in state `s` with the smallest age (the oldest), the
earliest slot winning ties. -/
def oldestIdx (s : VoiceState) : List Voice → Option Nat
  | [] => none
  | v :: vs =>
    match oldestIdx s vs with
    | none => if v.state = s then some 0 else none
    | some j =>
      if v.state = s then
        if v.age ≤ (vs.getD j idleVoice).age then some 0 else some (j + 1)
      else some (j + 1)

/-- Modelled from the spec (§4.2): steal-victim selection priority:
(1) any voice in Off state not yet reclaimed, (2) the oldest Releasing voice
(smallest age), (3) the oldest Playing voice (smallest age). -/
def stealVictim (pool : List Voice) : Option Nat :=
  match firstIdxSt .Off pool with
  | some i => some i
  | none =>
    match oldestIdx .Releasing pool with
    | some i => some i
    | none => oldestIdx .Playing pool

/-- Claiming slot `i`: place the freshly-reset Playing voice there and advance
the monotonic age tick. -/
def claimSlot (i : Nat) (r : Region) (note : Nat) (vel : ℚ) (st : Synth) :
    Synth :=
  { st with pool := st.pool.set i (mkVoice r note vel st.nextAge),
            nextAge := st.nextAge + 1 }

/-- Modelled from the spec (§4.2): `allocate(region, note, velocity)`.
If an Idle slot exists, claim it. Otherwise select a steal victim by the Off >
oldest-Releasing > oldest-Playing priority, force it to Off, and reuse its
slot. If no victim exists the event is dropped and counted. -/
def allocate (r : Region) (note : Nat) (vel : ℚ) (st : Synth) : Synth :=
  match firstIdxSt .Idle st.pool with
  | some i => claimSlot i r note vel st
  | none =>
    match stealVictim st.pool with
    | some i =>
      let offed : Synth :=
        { st with pool := st.pool.set i (forceOff (st.pool.getD i idleVoice)) }
      claimSlot i r note vel offed
    | none => { st with dropCounter := st.dropCounter + 1 }

/-- Modelled from the spec (§4.1): a Region's trigger ranges match an event:
key and velocity within range and every per-CC condition satisfied by the
current controller state. -/
def regionMatches (r : Region) (note : Nat) (vel : ℚ) (ctrl : Nat → ℚ) :
    Bool :=
  decide (r.loKey ≤ note) && decide (note ≤ r.hiKey) &&
  decide (r.loVel ≤ vel) && decide (vel ≤ r.hiVel) &&
  r.ccConditions.all
    (fun c => decide (c.2.1 ≤ ctrl c.1) && decide (ctrl c.1 ≤ c.2.2))

/-- Modelled from the spec (§4.1): on NoteOn every matching Region fires, one
voice per match, in catalog order; no match means no voice and no error. -/
def noteOn (note : Nat) (vel : ℚ) (st : Synth) : Synth :=
  (st.regions.filter (fun r => regionMatches r note vel st.ctrl)).foldl
    (fun s r => allocate r note vel s) st

/-- Modelled from the spec (§4.1): on NoteOff every Playing voice for that
note transitions to Releasing; if none exist, the event is a no-op. -/
def noteOff (note : Nat) (st : Synth) : Synth :=
  { st with pool := st.pool.map (fun v =>
      if v.state = .Playing ∧ v.note = note then { v with state := .Releasing }
      else v) }

/-- Modelled from the spec (§4.2): at block boundaries the pool reclaims Off
voices back to Idle, clearing the region binding. -/
def reclaim (st : Synth) : Synth :=
  { st with pool := st.pool.map (fun v =>
      if v.state = .Off then idleVoice else v) }

/-- An incoming engine event (spec §4.1). -/
inductive SfzEvent where
  | noteOn (note : Nat) (vel : ℚ)
  | noteOff (note : Nat)
  | cc (num : Nat) (val : ℚ)

/-- Modelled from the spec (§4.1, §9): event dispatch; CC events mutate the
engine-owned controller state. -/
def applyEvent (st : Synth) (e : SfzEvent) : Synth :=
  match e with
  | .noteOn n v => noteOn n v st
  | .noteOff n => noteOff n st
  | .cc num val =>
    { st with ctrl := fun k => if k = num then val else st.ctrl k }

/-- Processing a whole event sequence, drained in order (spec §5). -/
def processEvents (es : List SfzEvent) (st : Synth) : Synth :=
  es.foldl applyEvent st

/-- The number of non-Idle voices in a pool. -/
def countNonIdle (pool : List Voice) : Nat :=
  pool.countP (fun v => v.state ≠ .Idle)

/-- A voice is in exactly one of the four lifecycle states: the number of
states it currently satisfies is one. -/
def inExactlyOneState (v : Voice) : Prop :=
  ((if v.state = .Idle then 1 else 0) + (if v.state = .Playing then 1 else 0)
    + (if v.state = .Releasing then 1 else 0)
    + (if v.state = .Off then 1 else 0) : Nat) = 1

/-! ### Modulation resolution (spec §4.3) -/

/-- Modelled from the spec (§4.3): the envelope generator's pure per-voice
output as a function of its phase (a ramp saturating at 1). -/
def envOutput (phase : ℚ) : ℚ := min phase 1

/-- Modelled from the spec (§4.3): an LFO's pure per-voice output as a
function of its phase (a triangle over the fractional phase). -/
def lfoOutput (phase : ℚ) : ℚ := 1 - |2 * Int.fract phase - 1| * 2

/-- Modelled from the spec (§4.3): `sourceValue` of a ModKey: for a
controller it is the latest controller state; for an envelope/LFO it is that
generator's current per-voice output; the remaining roles read the voice's
note/velocity and the channel-wide aftertouch and pitch-bend slots. -/
def sourceValue (m : ModKey) (ctrl : Nat → ℚ) (v : Voice) : ℚ :=
  match m.role with
  | .controller => ctrl (m.ccNumber.getD 0)
  | .envelopeStage => envOutput v.envelopePhase
  | .lfo => lfoOutput (v.lfoPhases.getD (m.sourceIndex.getD 0) 0)
  | .velocity => v.velocity
  | .noteRole => (v.note : ℚ) / 127
  | .aftertouch => ctrl 128
  | .pitchBend => ctrl 129
  | .paramTarget => 0

/-- Clamping to a parameter's declared range `[lo, hi]`. -/
def clampQ (lo hi x : ℚ) : ℚ := max lo (min x hi)

/-- The static (pre-modulation) value a Region declares for a parameter. -/
def staticValue (r : Region) (p : Param) : ℚ :=
  ((r.staticParams.find? (fun q => q.1 = p)).map Prod.snd).getD 0

/-- One Connection's additive contribution: `depth * curve(sourceValue)`
(spec §4.3). -/
def connContribution (ctrl : Nat → ℚ) (v : Voice) (c : Connection) : ℚ :=
  c.depth * curveEval c.curve (sourceValue c.source ctrl v)

/-- Whether a Connection targets the given parameter. -/
def targetsParam (c : Connection) (p : Param) : Bool :=
  c.target.targetParameter = some p

/-- Modelled from the spec (§4.3): the per-block resolved value of a Region
parameter:
`clamp(paramRange, staticValue + Σ depth_i * curve_i(sourceValue_i))`
summed over the connections targeting that parameter. -/
def resolvedValue (r : Region) (p : Param) (ranges : Param → ℚ × ℚ)
    (ctrl : Nat → ℚ) (v : Voice) : ℚ :=
  clampQ (ranges p).1 (ranges p).2
    (staticValue r p +
      ((r.connections.filter (fun c => targetsParam c p)).map
        (connContribution ctrl v)).sum)

/-- The steal-priority contract of spec §4.2 for a victim slot `i`: if any
Off voice exists the victim is Off; with no Off voice but some Releasing
voice, the victim is the Releasing voice of smallest age; with neither, it is
the Playing voice of smallest age. -/
def victimPriority (pool : List Voice) (i : Nat) : Prop :=
  ((∃ v ∈ pool, v.state = .Off) → (pool.getD i idleVoice).state = .Off) ∧
  ((∀ v ∈ pool, v.state ≠ .Off) → (∃ v ∈ pool, v.state = .Releasing) →
    (pool.getD i idleVoice).state = .Releasing ∧
    ∀ k, k < pool.length → (pool.getD k idleVoice).state = .Releasing →
      (pool.getD i idleVoice).age ≤ (pool.getD k idleVoice).age) ∧
  ((∀ v ∈ pool, v.state ≠ .Off) → (∀ v ∈ pool, v.state ≠ .Releasing) →
    (pool.getD i idleVoice).state = .Playing ∧
    ∀ k, k < pool.length → (pool.getD k idleVoice).state = .Playing →
      (pool.getD i idleVoice).age ≤ (pool.getD k idleVoice).age)

/-- The ModKey of a CC modulation source. -/
def ccSource (n : Nat) : ModKey :=
  { role := .controller, sourceIndex := none, targetParameter := none,
    targetIndex := none, ccNumber := some n }

/-- The ModKey of a modulation target parameter. -/
def targetKey (p : Param) : ModKey :=
  { role := .paramTarget, sourceIndex := none, targetParameter := some p,
    targetIndex := none, ccNumber := none }

/-- A linear CC-to-parameter Connection, as in the spec scenario
`Connection{source=CC#n, target=p, depth, curve=linear}`. -/
def linearCCConn (cc : Nat) (p : Param) (depth : ℚ) : Connection :=
  { source := ccSource cc, target := targetKey p, curve := .linear,
    depth := depth }

/-- A concrete region used to instantiate the general theorems: full key and
velocity range, a cutoff of 50 modulated by CC 1 at depth 1/2. -/
def demoRegion : Region :=
  { loKey := 0, hiKey := 127, loVel := 0, hiVel := 1, ccConditions := [],
    staticParams := [(Param.cutoffFreq, 50)],
    connections := [linearCCConn 1 .cutoffFreq (1/2)], sampleRef := 7,
    numLfos := 2 }

/-- Concrete parameter ranges used to instantiate the general theorems. -/
def demoRanges : Param → ℚ × ℚ := fun _ => (0, 100)

/-- A concrete playing voice used to instantiate the general theorems. -/
def demoVoice : Voice :=
  { state := .Playing, region := some demoRegion, note := 60, velocity := 1,
    age := 3, envelopePhase := 1/4, lfoPhases := [0, 1/2] }

/-- A concrete two-slot engine whose pool is full of Playing voices (ages 5
and 3), used to instantiate the stealing theorem. -/
def fullSynth : Synth :=
  { pool := [{ demoVoice with note := 61, age := 5 }, demoVoice],
    ctrl := fun _ => 0, regions := [demoRegion], nextAge := 6,
    dropCounter := 0 }

/-- A region declaring one depth-0 (disabled-but-declared) connection. -/
def depth0Region : Region :=
  { demoRegion with connections := [linearCCConn 2 .volume 0] }

/-- The same region with the depth-0 connection omitted entirely. -/
def noConnRegion : Region := { demoRegion with connections := [] }

/-- A concrete engine whose slot 0 voice has reached Off, awaiting
reclamation. -/
def offSynth : Synth :=
  { fullSynth with
    pool := [forceOff { demoVoice with note := 61, age := 5 }, demoVoice] }

/-! ### Introspection accessors (tests/TestHelpers.h, spec §4.5)

The helper bodies are not among the sources (only their declarations and doc
comments in `tests/TestHelpers.h`), so they are modelled from the spec and
those comments. Each query is written in state-passing form, returning the
answer together with the engine (or view) state it leaves behind, so that the
read-only contract is a statement about the second component. -/

/-- Whether a voice counts as playing: unreleased (TestHelpers.h doc). -/
def isPlayingV (v : Voice) : Bool := v.state = .Playing

/-- Whether a voice counts as active: not free (Idle) nor offed
(TestHelpers.h doc for `numActiveVoices`). -/
def isActiveV (v : Voice) : Bool :=
  v.state = .Playing || v.state = .Releasing

/-- Modelled from the spec: `getActiveVoices(synth)` of TestHelpers.h. -/
def getActiveVoices (s : Synth) : List Voice × Synth :=
  (s.pool.filter isActiveV, s)

/-- Modelled from the spec: `getPlayingVoices(synth)` of TestHelpers.h. -/
def getPlayingVoices (s : Synth) : List Voice × Synth :=
  (s.pool.filter isPlayingV, s)

/-- Modelled from the spec: `numPlayingVoices(synth)` of TestHelpers.h. -/
def numPlayingVoices (s : Synth) : Nat × Synth :=
  (s.pool.countP isPlayingV, s)

/-- Modelled from the spec: `numActiveVoices(synth)` of TestHelpers.h. -/
def numActiveVoices (s : Synth) : Nat × Synth :=
  (s.pool.countP isActiveV, s)

/-- Modelled from the spec: `playingSamples(synth)` of TestHelpers.h: the
sample references of the playing voices. -/
def playingSamples (s : Synth) : List Nat × Synth :=
  ((s.pool.filter isPlayingV).map (fun v => (v.region.map Region.sampleRef).getD 0), s)

/-- Modelled from the spec: `playingNotes(synth)` of TestHelpers.h. -/
def playingNotes (s : Synth) : List Nat × Synth :=
  ((s.pool.filter isPlayingV).map Voice.note, s)

/-- The `RegionCCView` of TestHelpers.h: a read-only view over one Region's
CC-sourced connections reaching one target ModKey. -/
structure RegionCCView where
  region : Region
  target : ModKey

/-- Modelled from the spec: `RegionCCView::match`: the connection's source is
a controller and its target is the viewed ModKey. -/
def RegionCCView.matchConn (rv : RegionCCView) (c : Connection) : Bool :=
  c.source.role = .controller && c.target = rv.target

/-- Modelled from the spec: `RegionCCView::size`. -/
def RegionCCView.size (rv : RegionCCView) : Nat × RegionCCView :=
  ((rv.region.connections.filter rv.matchConn).length, rv)

/-- Modelled from the spec: `RegionCCView::empty`. -/
def RegionCCView.empty (rv : RegionCCView) : Bool × RegionCCView :=
  ((rv.region.connections.filter rv.matchConn).isEmpty, rv)

/-- Modelled from the spec: `RegionCCView::at(cc)`: the matching connection
whose source is the given CC number. -/
def RegionCCView.atCC (rv : RegionCCView) (cc : Nat) :
    Option Connection × RegionCCView :=
  ((rv.region.connections.filter rv.matchConn).find?
      (fun c => c.source.ccNumber = some cc), rv)

/-- Modelled from the spec: `RegionCCView::valueAt(cc)`: the depth of the
matching connection for that CC number. -/
def RegionCCView.valueAt (rv : RegionCCView) (cc : Nat) : ℚ × RegionCCView :=
  ((((rv.region.connections.filter rv.matchConn).find?
      (fun c => c.source.ccNumber = some cc)).map Connection.depth).getD 0, rv)

end Sfz

/-! ### `approxEqual` (tests/TestHelpers.h, lines 152–199)

Embedded from the source over ℚ. The per-element comparison
`rhs[i] != Approx(lhs[i]).margin(eps)` delegates to the external Catch2
library; its margin semantics (match when `|rhs - lhs| ≤ eps`) is embedded as
`approxWithin`. -/

namespace TestHelpers

/-- The Catch2 `Approx(target).margin(eps)` match used by `approxEqual`:
the value is within `eps` of the target. -/
def approxWithin (value target eps : ℚ) : Bool := |value - target| ≤ eps

/-- The scan loop of `approxEqual`: walk both spans in step, stopping at the
first element pair that fails the margin comparison (the loop's `break` with
`different = true`); `true` means no difference was found. -/
def approxEqualAux (eps : ℚ) : List ℚ → List ℚ → Bool
  | l :: ls, r :: rs =>
    if approxWithin r l eps then approxEqualAux eps ls rs else false
  | _, _ => true

/-- `approxEqual(lhs, rhs, eps)` from TestHelpers.h: `false` when the spans
have different sizes, otherwise the negation of the first-difference scan. -/
def approxEqual (lhs rhs : List ℚ) (eps : ℚ) : Bool :=
  if lhs.length ≠ rhs.length then false
  else approxEqualAux eps lhs rhs

/-- The default tolerance is `1e-3` (the C++ default argument). -/
def approxEqualDefault (lhs rhs : List ℚ) : Bool :=
  approxEqual lhs rhs (1 / 1000)

end TestHelpers

/-! ### Debug macros (src/sfizz/Debug.h)

The macros are statements over an ambient program state; the state is an
abstract store paired with the `std::cerr` stream contents and a flag
recording whether `debugBreak()` trapped. An `ASSERT` argument is an
expression: evaluating it may change the state and yields its truth value. -/

namespace Dbg

/-- Program state as the debug macros can observe it: the abstract store of
the surrounding program, the text written to `std::cerr`, and whether
`debugBreak()` has trapped. -/
structure DebugState (σ : Type) where
  store : σ
  cerr : List String
  trapped : Bool

/-- `ASSERTFALSE` as compiled when assertions are enabled (Debug.h lines
31–35): print the failure location to `std::cerr`, then `debugBreak()`. -/
def assertFalseDebug {σ : Type} (file : String) (line : Nat)
    (s : DebugState σ) : DebugState σ :=
  { s with
    cerr := s.cerr ++ ["Assert failed at " ++ file ++ ":" ++ toString line],
    trapped := true }

/-- `ASSERT(expression)` as compiled when assertions are enabled (Debug.h
lines 37–41): evaluate the expression; when it is false, `ASSERTFALSE`. -/
def assertDebug {σ : Type} (file : String) (line : Nat)
    (expression : DebugState σ → DebugState σ × Bool) (s : DebugState σ) :
    DebugState σ :=
  let (s', b) := expression s
  if b then s' else assertFalseDebug file line s'

/-- `ASSERTFALSE` as compiled with NDEBUG and without
SFIZZ_ENABLE_RELEASE_ASSERT (Debug.h line 45): `do {} while (0)`. -/
def assertFalseRelease {σ : Type} (s : DebugState σ) : DebugState σ := s

/-- `ASSERT(expression)` as compiled with NDEBUG and without
SFIZZ_ENABLE_RELEASE_ASSERT (Debug.h line 46): `do {} while (0)`; the
expression token is dropped by the preprocessor, so it is never evaluated. -/
def assertRelease {σ : Type}
    (expression : DebugState σ → DebugState σ × Bool) (s : DebugState σ) :
    DebugState σ := s

end Dbg

/-! ## Helper lemmas -/

namespace Sfz

theorem getD_set_self {α : Type} (d a : α) (l : List α) (i : Nat)
    (h : i < l.length) : (l.set i a).getD i d = a := by
  rw [List.getD_eq_getElem _ _ (by simpa using h)]
  exact List.getElem_set_self _

theorem map_self_of_eq {α : Type} (f : α → α) :
    ∀ l : List α, (∀ x ∈ l, f x = x) → l.map f = l := by
  intro l
  induction l with
  | nil => intro _; rfl
  | cons x xs ih =>
    intro h
    simp only [List.map_cons]
    rw [h x (List.mem_cons_self x xs),
      ih (fun y hy => h y (List.mem_cons_of_mem x hy))]

theorem getD_map {α : Type} (d : α) (f : α → α) (l : List α) (i : Nat)
    (h : i < l.length) : (l.map f).getD i d = f (l.getD i d) := by
  rw [List.getD_eq_getElem _ _ (by simpa using h),
    List.getD_eq_getElem _ _ h]
  exact List.getElem_map f

theorem getD_mem_voice (l : List Voice) (i : Nat) (h : i < l.length) :
    l.getD i idleVoice ∈ l := by
  rw [List.getD_eq_getElem _ _ h]
  exact List.getElem_mem h

theorem firstIdxSt_some {s : VoiceState} :
    ∀ {pool : List Voice} {i : Nat}, firstIdxSt s pool = some i →
      i < pool.length ∧ (pool.getD i idleVoice).state = s := by
  intro pool
  induction pool with
  | nil => intro i h; simp [firstIdxSt] at h
  | cons v vs ih =>
    intro i h
    by_cases hv : v.state = s
    · simp only [firstIdxSt, if_pos hv] at h
      injection h with h'
      subst h'
      exact ⟨Nat.succ_pos _, by simpa [List.getD_cons_zero] using hv⟩
    · simp only [firstIdxSt, if_neg hv, Option.map_eq_some'] at h
      obtain ⟨j, hj, rfl⟩ := h
      obtain ⟨h1, h2⟩ := ih hj
      exact ⟨Nat.succ_lt_succ h1, by simpa [List.getD_cons_succ] using h2⟩

theorem firstIdxSt_none {s : VoiceState} :
    ∀ {pool : List Voice}, firstIdxSt s pool = none →
      ∀ v ∈ pool, v.state ≠ s := by
  intro pool
  induction pool with
  | nil => intro _ v hv; simp at hv
  | cons v vs ih =>
    intro h w hw
    by_cases hv : v.state = s
    · simp [firstIdxSt, hv] at h
    · simp only [firstIdxSt, if_neg hv, Option.map_eq_none'] at h
      rcases List.mem_cons.mp hw with rfl | hw'
      · exact hv
      · exact ih h w hw'

theorem firstIdxSt_isSome {s : VoiceState} {pool : List Voice}
    (h : ∃ v ∈ pool, v.state = s) : ∃ i, firstIdxSt s pool = some i := by
  cases hf : firstIdxSt s pool with
  | none =>
    obtain ⟨v, hv, hs⟩ := h
    exact absurd hs (firstIdxSt_none hf v hv)
  | some i => exact ⟨i, rfl⟩

theorem oldestIdx_none {s : VoiceState} :
    ∀ {pool : List Voice}, oldestIdx s pool = none →
      ∀ v ∈ pool, v.state ≠ s := by
  intro pool
  induction pool with
  | nil => intro _ v hv; simp at hv
  | cons v vs ih =>
    intro h w hw
    cases hrec : oldestIdx s vs with
    | none =>
      simp only [oldestIdx, hrec] at h
      by_cases hv : v.state = s
      · rw [if_pos hv] at h
        exact absurd h (by simp)
      · rcases List.mem_cons.mp hw with rfl | hw'
        · exact hv
        · exact ih hrec w hw'
    | some j =>
      simp only [oldestIdx, hrec] at h
      by_cases hv : v.state = s
      · rw [if_pos hv] at h
        by_cases ha : v.age ≤ (vs.getD j idleVoice).age
        · rw [if_pos ha] at h
          exact absurd h (by simp)
        · rw [if_neg ha] at h
          exact absurd h (by simp)
      · rw [if_neg hv] at h
        exact absurd h (by simp)

theorem oldestIdx_isSome {s : VoiceState} {pool : List Voice}
    (h : ∃ v ∈ pool, v.state = s) : ∃ i, oldestIdx s pool = some i := by
  cases hf : oldestIdx s pool with
  | none =>
    obtain ⟨v, hv, hs⟩ := h
    exact absurd hs (oldestIdx_none hf v hv)
  | some i => exact ⟨i, rfl⟩

theorem oldestIdx_some {s : VoiceState} :
    ∀ {pool : List Voice} {i : Nat}, oldestIdx s pool = some i →
      i < pool.length ∧ (pool.getD i idleVoice).state = s ∧
      ∀ k, k < pool.length → (pool.getD k idleVoice).state = s →
        (pool.getD i idleVoice).age ≤ (pool.getD k idleVoice).age := by
  intro pool
  induction pool with
  | nil => intro i h; simp [oldestIdx] at h
  | cons v vs ih =>
    intro i h
    cases hrec : oldestIdx s vs with
    | none =>
      simp only [oldestIdx, hrec] at h
      by_cases hv : v.state = s
      · rw [if_pos hv] at h
        injection h with h'
        subst h'
        refine ⟨Nat.succ_pos _, by simpa [List.getD_cons_zero] using hv, ?_⟩
        intro k hk hks
        cases k with
        | zero => exact le_refl _
        | succ k' =>
          exfalso
          have hk' : k' < vs.length := Nat.lt_of_succ_lt_succ hk
          exact oldestIdx_none hrec _ (getD_mem_voice vs k' hk')
            (by simpa [List.getD_cons_succ] using hks)
      · rw [if_neg hv] at h
        exact absurd h (by simp)
    | some j =>
      simp only [oldestIdx, hrec] at h
      obtain ⟨hj, hjs, hjmin⟩ := ih hrec
      by_cases hv : v.state = s
      · rw [if_pos hv] at h
        by_cases ha : v.age ≤ (vs.getD j idleVoice).age
        · rw [if_pos ha] at h
          injection h with h'
          subst h'
          refine ⟨Nat.succ_pos _, by simpa [List.getD_cons_zero] using hv, ?_⟩
          intro k hk hks
          cases k with
          | zero => exact le_refl _
          | succ k' =>
            have hk' : k' < vs.length := Nat.lt_of_succ_lt_succ hk
            have hmin := hjmin k' hk'
              (by simpa [List.getD_cons_succ] using hks)
            simpa [List.getD_cons_zero, List.getD_cons_succ] using
              le_trans ha hmin
        · rw [if_neg ha] at h
          injection h with h'
          subst h'
          refine ⟨Nat.succ_lt_succ hj,
            by simpa [List.getD_cons_succ] using hjs, ?_⟩
          intro k hk hks
          cases k with
          | zero =>
            have := (not_le.mp ha).le
            simpa [List.getD_cons_zero, List.getD_cons_succ] using this
          | succ k' =>
            have hk' : k' < vs.length := Nat.lt_of_succ_lt_succ hk
            simpa [List.getD_cons_succ] using hjmin k' hk'
              (by simpa [List.getD_cons_succ] using hks)
      · rw [if_neg hv] at h
        injection h with h'
        subst h'
        refine ⟨Nat.succ_lt_succ hj,
          by simpa [List.getD_cons_succ] using hjs, ?_⟩
        intro k hk hks
        cases k with
        | zero => exact absurd (by simpa [List.getD_cons_zero] using hks) hv
        | succ k' =>
          have hk' : k' < vs.length := Nat.lt_of_succ_lt_succ hk
          simpa [List.getD_cons_succ] using hjmin k' hk'
            (by simpa [List.getD_cons_succ] using hks)

theorem pool_length_claimSlot (i : Nat) (r : Region) (note : Nat) (vel : ℚ)
    (st : Synth) : (claimSlot i r note vel st).pool.length = st.pool.length :=
  List.length_set st.pool i (mkVoice r note vel st.nextAge)

theorem pool_length_allocate (r : Region) (note : Nat) (vel : ℚ)
    (st : Synth) : (allocate r note vel st).pool.length = st.pool.length := by
  unfold allocate
  cases h1 : firstIdxSt .Idle st.pool with
  | some i => simp [claimSlot]
  | none =>
    cases h2 : stealVictim st.pool with
    | some i => simp [claimSlot]
    | none => simp

theorem pool_length_allocList (note : Nat) (vel : ℚ) :
    ∀ (rs : List Region) (st : Synth),
      ((rs.foldl (fun s r => allocate r note vel s) st).pool.length
        = st.pool.length) := by
  intro rs
  induction rs with
  | nil => intro st; rfl
  | cons r rs ih =>
    intro st
    simp only [List.foldl_cons]
    rw [ih, pool_length_allocate]

theorem pool_length_applyEvent (st : Synth) (e : SfzEvent) :
    (applyEvent st e).pool.length = st.pool.length := by
  cases e with
  | noteOn n v => exact pool_length_allocList n v _ st
  | noteOff n => simp [applyEvent, noteOff]
  | cc num val => rfl

theorem pool_length_processEvents :
    ∀ (es : List SfzEvent) (st : Synth),
      (processEvents es st).pool.length = st.pool.length := by
  intro es
  induction es with
  | nil => intro st; rfl
  | cons e es ih =>
    intro st
    simp only [processEvents, List.foldl_cons] at ih ⊢
    rw [ih, pool_length_applyEvent]

end Sfz

/-! ## Claim theorems -/

open Sfz TestHelpers Dbg

/-- **C1.** For every sequence of NoteOn/NoteOff events processed by the
engine, the number of voices in a non-Idle state (Playing, Releasing or Off)
never exceeds the pool capacity `maxPolyphony`, and every voice in the pool
is in exactly one of the four states Idle/Playing/Releasing/Off. -/
theorem voice_pool_state_invariant (maxPolyphony : Nat)
    (regions : List Region) (es : List SfzEvent) :
    countNonIdle (processEvents es (initSynth maxPolyphony regions)).pool ≤
      maxPolyphony ∧
    ∀ v ∈ (processEvents es (initSynth maxPolyphony regions)).pool,
      inExactlyOneState v := by
  constructor
  · have h1 :
        countNonIdle
            (processEvents es (initSynth maxPolyphony regions)).pool ≤
          (processEvents es (initSynth maxPolyphony regions)).pool.length :=
      List.countP_le_length _
    have h2 :
        (processEvents es (initSynth maxPolyphony regions)).pool.length =
          maxPolyphony := by
      rw [pool_length_processEvents]
      simp [initSynth]
    omega
  · intro v _
    unfold inExactlyOneState
    cases h : v.state <;> simp [h]

/-- Witness for C1 at a concrete input: two slots, one NoteOn. -/
theorem voice_pool_state_invariant_witness :
    countNonIdle (processEvents [SfzEvent.noteOn 60 1]
        (initSynth 2 [demoRegion])).pool ≤ 2 ∧
    inExactlyOneState idleVoice :=
  ⟨(voice_pool_state_invariant 2 [demoRegion] [SfzEvent.noteOn 60 1]).1,
   (voice_pool_state_invariant 2 [demoRegion] [SfzEvent.noteOn 60 1]).2
     idleVoice (by decide)⟩

/-- **C3.** Modulation resolution is deterministic: two resolutions of the
same target parameter with identical controller state and identical per-voice
state (age and generator phases) yield identical resolved values, exactly. -/
theorem resolution_deterministic (r : Region) (p : Param)
    (ranges : Param → ℚ × ℚ) (c₁ c₂ : Nat → ℚ) (v₁ v₂ : Voice)
    (hc : ∀ k, c₁ k = c₂ k) (hv : v₁ = v₂) :
    resolvedValue r p ranges c₁ v₁ = resolvedValue r p ranges c₂ v₂ := by
  have hcc : c₁ = c₂ := funext hc
  subst hcc
  subst hv
  rfl

/-- Witness for C3 at a concrete input. -/
theorem resolution_deterministic_witness :
    resolvedValue demoRegion .cutoffFreq demoRanges (fun _ => 0) demoVoice =
      resolvedValue demoRegion .cutoffFreq demoRanges (fun _ => 0)
        demoVoice :=
  resolution_deterministic demoRegion .cutoffFreq demoRanges _ _ _ _
    (fun _ => rfl) rfl

/-- **C8.** Every introspection query is read-only: it returns its value
together with the engine (or view) state it leaves behind, and that state
equals the one it was given. -/
theorem introspection_readonly (s : Synth) (rv : RegionCCView) (cc : Nat) :
    (getActiveVoices s).2 = s ∧ (getPlayingVoices s).2 = s ∧
    (numPlayingVoices s).2 = s ∧ (numActiveVoices s).2 = s ∧
    (playingSamples s).2 = s ∧ (playingNotes s).2 = s ∧
    (rv.size).2 = rv ∧ (rv.empty).2 = rv ∧
    (rv.atCC cc).2 = rv ∧ (rv.valueAt cc).2 = rv :=
  ⟨rfl, rfl, rfl, rfl, rfl, rfl, rfl, rfl, rfl, rfl⟩

/-- **C10.** With NDEBUG and without SFIZZ_ENABLE_RELEASE_ASSERT, `ASSERT`
and `ASSERTFALSE` are empty statements: the state (store, cerr output, trap
flag) is returned unchanged for every state, and the expression argument is
never evaluated — the macro does not depend on it at all. -/
theorem release_assert_noop (σ : Type) :
    (∀ (e : DebugState σ → DebugState σ × Bool) (s : DebugState σ),
      assertRelease e s = s) ∧
    (∀ e₁ e₂ : DebugState σ → DebugState σ × Bool,
      assertRelease e₁ = assertRelease e₂) ∧
    (∀ s : DebugState σ, assertFalseRelease s = s) :=
  ⟨fun _ _ => rfl, fun _ _ => rfl, fun _ => rfl⟩

/-- **C6.** NoteOff for a note with no matching Playing voice is a no-op:
the engine state is unchanged; and every Playing voice for the note
transitions to Releasing. -/
theorem noteOff_spec (n : Nat) (st : Synth) :
    ((∀ v ∈ st.pool, ¬(v.state = .Playing ∧ v.note = n)) →
      noteOff n st = st) ∧
    (∀ i, i < st.pool.length →
      (st.pool.getD i idleVoice).state = .Playing →
      (st.pool.getD i idleVoice).note = n →
      ((noteOff n st).pool.getD i idleVoice).state = .Releasing) := by
  constructor
  · intro h
    unfold noteOff
    have hmap :
        st.pool.map (fun v =>
          if v.state = .Playing ∧ v.note = n then { v with state := .Releasing }
          else v) = st.pool := by
      apply map_self_of_eq
      intro v hv
      rw [if_neg (h v hv)]
    rw [hmap]
  · intro i hi hp hn
    have hm := getD_map idleVoice (fun v =>
      if v.state = .Playing ∧ v.note = n then { v with state := .Releasing }
      else v) st.pool i hi
    simp only [noteOff]
    rw [hm]
    simp only []
    rw [if_pos (And.intro hp hn)]

/-- Witness for C6: NoteOff 99 has no matching voice and leaves `fullSynth`
untouched; NoteOff 60 releases the Playing voice in slot 1. -/
theorem noteOff_spec_witness :
    noteOff 99 fullSynth = fullSynth ∧
    ((noteOff 60 fullSynth).pool.getD 1 idleVoice).state = .Releasing :=
  ⟨(noteOff_spec 99 fullSynth).1 (by decide),
   (noteOff_spec 60 fullSynth).2 1 (by decide) (by decide) (by decide)⟩

/-- **C5.** A depth-0 Connection is neutral: for every Region, target
parameter, controller state and voice, the resolved value with the depth-0
connection present equals the resolved value with it omitted entirely. -/
theorem depth0_connection_neutral (r r' : Region) (c : Connection)
    (l₁ l₂ : List Connection) (hd : c.depth = 0)
    (hr : r.connections = l₁ ++ c :: l₂)
    (hr' : r' = { r with connections := l₁ ++ l₂ })
    (p : Param) (ranges : Param → ℚ × ℚ) (ctrl : Nat → ℚ) (v : Voice) :
    resolvedValue r p ranges ctrl v = resolvedValue r' p ranges ctrl v := by
  subst hr'
  unfold resolvedValue
  have hstat :
      staticValue { r with connections := l₁ ++ l₂ } p = staticValue r p :=
    rfl
  rw [hstat, hr]
  rw [List.filter_append, List.filter_append, List.filter_cons]
  by_cases hc : targetsParam c p
  · simp [hc, List.map_append, List.sum_append, connContribution, hd]
  · simp [hc, List.map_append, List.sum_append]

/-- Witness for C5: the depth-0 CC2→volume route of `depth0Region` changes
nothing versus `noConnRegion`. -/
theorem depth0_connection_neutral_witness :
    resolvedValue depth0Region .volume demoRanges (fun _ => 1) demoVoice =
      resolvedValue noConnRegion .volume demoRanges (fun _ => 1) demoVoice :=
  depth0_connection_neutral depth0Region noConnRegion
    (linearCCConn 2 .volume 0) [] [] rfl rfl rfl .volume demoRanges
    (fun _ => 1) demoVoice

/-- **C4.** The spec's CC-modulation scenario: a Region with the single
connection `{source=CC#1, target=cutoffFreq, depth=1/2, curve=linear}` and an
in-range static cutoff resolves to the static value when CC1 is 0, and to
`clamp(range, staticValue + 1/2)` when CC1 is (normalized) 1. -/
theorem cc_modulation_scenario (sv lo hi : ℚ) (v : Voice) (r : Region)
    (hr : r.connections = [linearCCConn 1 .cutoffFreq (1/2)])
    (hstatic : staticValue r .cutoffFreq = sv)
    (ranges : Param → ℚ × ℚ) (hrange : ranges .cutoffFreq = (lo, hi))
    (hlo : lo ≤ sv) (hhi : sv ≤ hi) :
    resolvedValue r .cutoffFreq ranges (fun _ => 0) v = sv ∧
    resolvedValue r .cutoffFreq ranges (fun k => if k = 1 then 1 else 0) v =
      clampQ lo hi (sv + 1/2) := by
  constructor
  · unfold resolvedValue
    rw [hr, hrange, hstatic]
    simp [targetsParam, linearCCConn, targetKey, ccSource, connContribution,
      sourceValue, curveEval, clampQ, min_eq_left hhi, max_eq_right hlo]
  · unfold resolvedValue
    rw [hr, hrange, hstatic]
    simp [targetsParam, linearCCConn, targetKey, ccSource, connContribution,
      sourceValue, curveEval, clampQ]

/-- Witness for C4 at the concrete `demoRegion` (static cutoff 50, range
[0, 100]). -/
theorem cc_modulation_scenario_witness :
    resolvedValue demoRegion .cutoffFreq demoRanges (fun _ => 0) demoVoice =
      50 ∧
    resolvedValue demoRegion .cutoffFreq demoRanges
        (fun k => if k = 1 then 1 else 0) demoVoice =
      clampQ 0 100 (50 + 1/2) :=
  cc_modulation_scenario 50 0 100 demoVoice demoRegion rfl (by decide)
    demoRanges rfl (by norm_num) (by norm_num)

/-- The scan loop of `approxEqual` finds no difference exactly when every
index is within the margin. -/
theorem approxEqualAux_true_iff (eps : ℚ) :
    ∀ lhs rhs : List ℚ, lhs.length = rhs.length →
      (approxEqualAux eps lhs rhs = true ↔
        ∀ i, i < rhs.length → |rhs.getD i 0 - lhs.getD i 0| ≤ eps) := by
  intro lhs
  induction lhs with
  | nil =>
    intro rhs hlen
    cases rhs with
    | nil => simp [approxEqualAux]
    | cons r rs => simp at hlen
  | cons l ls ih =>
    intro rhs hlen
    cases rhs with
    | nil => simp at hlen
    | cons r rs =>
      have hlen' : ls.length = rs.length := by simpa using hlen
      constructor
      · intro h i hi
        by_cases hw : approxWithin r l eps = true
        · have hrest := (ih rs hlen').mp
            (by simpa [approxEqualAux, hw] using h)
          cases i with
          | zero => simpa [approxWithin, List.getD_cons_zero] using hw
          | succ i' =>
            simpa [List.getD_cons_succ] using
              hrest i' (Nat.lt_of_succ_lt_succ hi)
        · simp [approxEqualAux, hw] at h
      · intro h
        have hw : approxWithin r l eps = true := by
          simpa [approxWithin] using h 0 (Nat.succ_pos _)
        simp only [approxEqualAux, hw, if_true]
        exact (ih rs hlen').mpr (fun i hi => by
          simpa [List.getD_cons_succ] using h (i + 1) (Nat.succ_lt_succ hi))

/-- **C9.** `approxEqual` returns false on spans of different lengths; on
equal lengths it returns true exactly when every index pair is within the
margin `eps`; and two empty spans compare equal. -/
theorem approxEqual_spec (lhs rhs : List ℚ) (eps : ℚ) :
    (lhs.length ≠ rhs.length → approxEqual lhs rhs eps = false) ∧
    (lhs.length = rhs.length →
      (approxEqual lhs rhs eps = true ↔
        ∀ i, i < rhs.length → |rhs.getD i 0 - lhs.getD i 0| ≤ eps)) ∧
    approxEqual [] [] eps = true := by
  refine ⟨?_, ?_, rfl⟩
  · intro h
    rw [approxEqual, if_pos h]
  · intro h
    rw [approxEqual, if_neg (not_not_intro h)]
    exact approxEqualAux_true_iff eps lhs rhs h

/-- **C7.** Reclamation leaves no residual state: in an engine with an Off
voice, reclaiming and then reallocating yields a claimed slot whose voice is
the freshly-built Playing voice, with envelope phase and LFO phases at their
initial (reset) values, independent of the slot's previous note. -/
theorem reclaim_then_allocate_resets (st : Synth) (r : Region) (note : Nat)
    (vel : ℚ) (hoff : ∃ v ∈ st.pool, v.state = VoiceState.Off) :
    ∃ j, j < st.pool.length ∧
      firstIdxSt .Idle (reclaim st).pool = some j ∧
      (allocate r note vel (reclaim st)).pool.getD j idleVoice =
        mkVoice r note vel (reclaim st).nextAge ∧
      ((allocate r note vel (reclaim st)).pool.getD j
        idleVoice).envelopePhase = 0 ∧
      ((allocate r note vel (reclaim st)).pool.getD j idleVoice).lfoPhases =
        List.replicate r.numLfos 0 ∧
      ((allocate r note vel (reclaim st)).pool.getD j idleVoice).state =
        VoiceState.Playing := by
  obtain ⟨v, hv, hs⟩ := hoff
  have hidle : ∃ w ∈ (reclaim st).pool, w.state = VoiceState.Idle := by
    refine ⟨idleVoice, ?_, rfl⟩
    have hfv :
        (fun v => if v.state = VoiceState.Off then idleVoice else v) v =
          idleVoice := by
      show (if v.state = VoiceState.Off then idleVoice else v) = idleVoice
      rw [if_pos hs]
    have hmem := List.mem_map_of_mem
      (fun v => if v.state = VoiceState.Off then idleVoice else v) hv
    rw [hfv] at hmem
    simpa [reclaim] using hmem
  obtain ⟨j, hj⟩ := firstIdxSt_isSome hidle
  obtain ⟨hjlen, _⟩ := firstIdxSt_some hj
  have hlen : (reclaim st).pool.length = st.pool.length := by
    simp [reclaim]
  have halloc : (allocate r note vel (reclaim st)).pool =
      (reclaim st).pool.set j (mkVoice r note vel (reclaim st).nextAge) := by
    unfold allocate
    rw [hj]
    simp [claimSlot]
  have hget : (allocate r note vel (reclaim st)).pool.getD j idleVoice =
      mkVoice r note vel (reclaim st).nextAge := by
    rw [halloc]
    exact getD_set_self _ _ _ _ hjlen
  exact ⟨j, hlen ▸ hjlen, hj, hget, by rw [hget]; rfl, by rw [hget]; rfl,
    by rw [hget]; rfl⟩

/-- Witness for C7 at the concrete `offSynth`. -/
theorem reclaim_then_allocate_resets_witness :
    ∃ j, j < offSynth.pool.length ∧
      firstIdxSt .Idle (reclaim offSynth).pool = some j ∧
      (allocate demoRegion 64 1 (reclaim offSynth)).pool.getD j idleVoice =
        mkVoice demoRegion 64 1 (reclaim offSynth).nextAge ∧
      ((allocate demoRegion 64 1 (reclaim offSynth)).pool.getD j
        idleVoice).envelopePhase = 0 ∧
      ((allocate demoRegion 64 1 (reclaim offSynth)).pool.getD j
        idleVoice).lfoPhases = List.replicate demoRegion.numLfos 0 ∧
      ((allocate demoRegion 64 1 (reclaim offSynth)).pool.getD j
        idleVoice).state = VoiceState.Playing :=
  reclaim_then_allocate_resets offSynth demoRegion 64 1
    ⟨forceOff { demoVoice with note := 61, age := 5 },
      by simp [offSynth], rfl⟩

theorem stealVictim_off {pool : List Voice} {i : Nat}
    (h : firstIdxSt .Off pool = some i) : stealVictim pool = some i := by
  unfold stealVictim
  rw [h]

theorem stealVictim_rel {pool : List Voice} {i : Nat}
    (hOff : firstIdxSt .Off pool = none)
    (h : oldestIdx .Releasing pool = some i) : stealVictim pool = some i := by
  unfold stealVictim
  rw [hOff, h]

theorem stealVictim_play {pool : List Voice}
    (hOff : firstIdxSt .Off pool = none)
    (hRel : oldestIdx .Releasing pool = none) :
    stealVictim pool = oldestIdx .Playing pool := by
  unfold stealVictim
  rw [hOff, hRel]

theorem allocate_steal_eq (r : Region) (note : Nat) (vel : ℚ) (st : Synth)
    (hIdle : firstIdxSt .Idle st.pool = none) {i : Nat}
    (hi : stealVictim st.pool = some i) :
    (allocate r note vel st).pool =
      st.pool.set i (mkVoice r note vel st.nextAge) := by
  unfold allocate
  rw [hIdle, hi]
  simp [claimSlot, List.set_set]

/-- **C2.** When the pool is full (no Idle slot) and allocation is requested,
the steal victim satisfies the Off > oldest-Releasing > oldest-Playing
priority, it is forced to Off, and exactly one new Playing voice replaces it
in that slot (the pool is the old pool with only that slot overwritten by the
fresh Playing voice). -/
theorem steal_on_full_pool (r : Region) (note : Nat) (vel : ℚ) (st : Synth)
    (hne : st.pool ≠ []) (hfull : ∀ v ∈ st.pool, v.state ≠ .Idle) :
    ∃ i, i < st.pool.length ∧ stealVictim st.pool = some i ∧
      victimPriority st.pool i ∧
      (allocate r note vel st).pool =
        st.pool.set i (mkVoice r note vel st.nextAge) ∧
      (forceOff (st.pool.getD i idleVoice)).state = .Off ∧
      (mkVoice r note vel st.nextAge).state = .Playing := by
  have hIdleNone : firstIdxSt .Idle st.pool = none := by
    cases hf : firstIdxSt .Idle st.pool with
    | none => rfl
    | some j =>
      obtain ⟨hlen, hstate⟩ := firstIdxSt_some hf
      exact absurd hstate (hfull _ (getD_mem_voice _ _ hlen))
  cases hOff : firstIdxSt .Off st.pool with
  | some j =>
    have hi : stealVictim st.pool = some j := stealVictim_off hOff
    obtain ⟨hjlen, hjst⟩ := firstIdxSt_some hOff
    refine ⟨j, hjlen, hi, ⟨fun _ => hjst, ?_, ?_⟩,
      allocate_steal_eq r note vel st hIdleNone hi, rfl, rfl⟩
    · intro hNoOff _
      exact absurd hjst (hNoOff _ (getD_mem_voice _ _ hjlen))
    · intro hNoOff _
      exact absurd hjst (hNoOff _ (getD_mem_voice _ _ hjlen))
  | none =>
    have hNoOffMem : ∀ v ∈ st.pool, v.state ≠ VoiceState.Off :=
      firstIdxSt_none hOff
    cases hRel : oldestIdx .Releasing st.pool with
    | some j =>
      have hi : stealVictim st.pool = some j := stealVictim_rel hOff hRel
      obtain ⟨hjlen, hjst, hjmin⟩ := oldestIdx_some hRel
      refine ⟨j, hjlen, hi, ⟨?_, fun _ _ => ⟨hjst, hjmin⟩, ?_⟩,
        allocate_steal_eq r note vel st hIdleNone hi, rfl, rfl⟩
      · intro hOffEx
        obtain ⟨w, hw, hws⟩ := hOffEx
        exact absurd hws (hNoOffMem w hw)
      · intro _ hNoRel
        exact absurd hjst (hNoRel _ (getD_mem_voice _ _ hjlen))
    | none =>
      have hNoRelMem : ∀ v ∈ st.pool, v.state ≠ VoiceState.Releasing :=
        oldestIdx_none hRel
      have hPlayEx : ∃ v ∈ st.pool, v.state = VoiceState.Playing := by
        obtain ⟨v, hv⟩ := List.exists_mem_of_ne_nil st.pool hne
        refine ⟨v, hv, ?_⟩
        have h1 := hfull v hv
        have h2 := hNoOffMem v hv
        have h3 := hNoRelMem v hv
        match hs : v.state with
        | .Idle => exact absurd hs h1
        | .Playing => rfl
        | .Releasing => exact absurd hs h3
        | .Off => exact absurd hs h2
      obtain ⟨j, hj⟩ := oldestIdx_isSome hPlayEx
      have hi : stealVictim st.pool = some j := by
        rw [stealVictim_play hOff hRel]
        exact hj
      obtain ⟨hjlen, hjst, hjmin⟩ := oldestIdx_some hj
      refine ⟨j, hjlen, hi, ⟨?_, ?_, fun _ _ => ⟨hjst, hjmin⟩⟩,
        allocate_steal_eq r note vel st hIdleNone hi, rfl, rfl⟩
      · intro hOffEx
        obtain ⟨w, hw, hws⟩ := hOffEx
        exact absurd hws (hNoOffMem w hw)
      · intro _ hRelEx
        obtain ⟨w, hw, hws⟩ := hRelEx
        exact absurd hws (hNoRelMem w hw)

/-- Witness for C2 at the concrete `fullSynth` (two Playing voices). -/
theorem steal_on_full_pool_witness :
    ∃ i, i < fullSynth.pool.length ∧ stealVictim fullSynth.pool = some i ∧
      victimPriority fullSynth.pool i ∧
      (allocate demoRegion 64 (1/2) fullSynth).pool =
        fullSynth.pool.set i (mkVoice demoRegion 64 (1/2) fullSynth.nextAge) ∧
      (forceOff (fullSynth.pool.getD i idleVoice)).state = .Off ∧
      (mkVoice demoRegion 64 (1/2) fullSynth.nextAge).state = .Playing :=
  steal_on_full_pool demoRegion 64 (1/2) fullSynth (by decide) (by decide)

/-- Witness for C9: a length mismatch returns false, and on equal lengths the
true result transports to the per-index margin bound. -/
theorem approxEqual_spec_witness :
    approxEqual [0] [] 1 = false ∧
    (approxEqual [0, 1] [0, 1] (1 / 1000) = true ↔
      ∀ i, i < ([0, 1] : List ℚ).length →
        |([0, 1] : List ℚ).getD i 0 - ([0, 1] : List ℚ).getD i 0| ≤
          (1 / 1000 : ℚ)) :=
  ⟨(approxEqual_spec [0] [] 1).1 (by decide),
   (approxEqual_spec [0, 1] [0, 1] (1 / 1000)).2.1 rfl⟩

